import Mathlib

/-!
Verification development for the fdbmonitor process supervisor
(src/fdbmonitor/fdbmonitor.cpp).  The definitions below are a shallow
embedding of the C++ source: doubles are modelled as rationals, the
C integer types as Nat/Int with explicit wrap-around where it matters,
and the three global unordered_maps as functions into Option.
Line numbers in the doc comments refer to fdbmonitor.cpp.
-/

namespace Fdbmonitor

/-! ## Signals (lines 534-549, 1117-1144) -/

/-- Linux signal number for SIGHUP. -/
def SIGHUP : ℕ := 1

/-- Linux signal number for SIGINT. -/
def SIGINT : ℕ := 2

/-- Linux signal number for SIGTERM. -/
def SIGTERM : ℕ := 15

/-- Embedding of `signal_handler` (lines 537-540): the handler keeps the
numerically larger of the stored `exit_signal` and the arriving signal:
`if (sig > exit_signal) exit_signal = sig;`. -/
def signal_handler (exit_sig sig : ℕ) : ℕ :=
  if sig > exit_sig then sig else exit_sig

/-- The value of the `exit_signal` flag after a sequence of signal
deliveries, starting from a stored value `s`. -/
def deliver_signals (s : ℕ) (sigs : List ℕ) : ℕ :=
  sigs.foldl signal_handler s

/-! ## Configuration lookup (lines 150-163) -/

/-- Embedding of `get_value_multi` (lines 150-163): try each section in
order and return the first value found.  The INI file is modelled as a
function from section name and key to an optional value. -/
def get_value_multi (ini : String → String → Option String) (key : String) :
    List String → Option String
  | [] => none
  | sec :: rest =>
    match ini sec key with
    | some v => some v
    | none => get_value_multi ini key rest

/-! ## The Command descriptor (lines 242-444) -/

/-- Embedding of `struct Command` (lines 242-263).  Only the fields the
claims are about are kept: `commands` is the argv word vector, the delay
fields mirror the uint32/double fields of the source (doubles as ℚ), and
the four boolean flags.  File descriptors, the section-name strings and
the pipes are not needed by any claim. -/
structure Command where
  commands : List String
  initial_restart_delay : ℕ
  max_restart_delay : ℕ
  current_restart_delay : ℚ
  restart_backoff : ℚ
  restart_delay_reset_interval : ℕ
  last_start : ℚ
  quiet : Bool
  delete_wd40_env : Bool
  deconfigured : Bool
  kill_on_configuration_change : Bool
deriving DecidableEq

/-- Embedding of the `kill_on_configuration_change` parse (lines 359-362):
the field is initialised to `true` in the constructor initialiser list and
set to `false` when a value is present and `strcmp(kocc, "true")` is
non-zero. -/
def kocc_flag (v : Option String) : Bool :=
  match v with
  | none => true
  | some s => if s ≠ "true" then false else true

/-- Embedding of the numeric part of `Command::Command` (lines 294-348).
String parsing by `strtoul`/`strtod` is abstracted: each present
configuration value arrives already parsed (a value whose parse fails
makes the constructor bail out with `argv` null, which is the `none`
result here, exactly like the absent/invalid cases below).
`rd` is `restart_delay` (required), `mrd` is `initial_restart_delay`
(defaults to 0, clamped by `std::min` to `max_restart_delay`), `rbo` is
`restart_backoff` (defaults to `max_restart_delay`; an explicit value
below 1.0 is rejected), `rdri` is `restart_delay_reset_interval`
(defaults to `max_restart_delay`).  `current_restart_delay` starts at
`initial_restart_delay` (line 320) and `last_start` at 0 (line 292). -/
def Command.construct (rd : ℕ) (mrd : Option ℕ) (rbo : Option ℚ) (rdri : Option ℕ)
    (cmds : List String) (quiet dwe kocc : Bool) : Option Command :=
  let maxd := rd
  let initiald := match mrd with | none => 0 | some v => min maxd v
  let resetd := match rdri with | none => maxd | some v => v
  match rbo with
  | none =>
      some ⟨cmds, initiald, maxd, (initiald : ℚ), (maxd : ℚ), resetd, 0,
        quiet, dwe, false, kocc⟩
  | some b =>
      if b < 1 then none
      else
        some ⟨cmds, initiald, maxd, (initiald : ℚ), b, resetd, 0,
          quiet, dwe, false, kocc⟩

/-- Embedding of `Command::update` (lines 409-421): copy the option
fields from the freshly constructed candidate, keep `commands` and
`last_start`, and clamp `current_restart_delay` first from above by
`max_restart_delay` and then from below by `initial_restart_delay`. -/
def Command.update (c other : Command) : Command :=
  { commands := c.commands
    initial_restart_delay := other.initial_restart_delay
    max_restart_delay := other.max_restart_delay
    current_restart_delay :=
      max (other.initial_restart_delay : ℚ)
        (min (other.max_restart_delay : ℚ) c.current_restart_delay)
    restart_backoff := other.restart_backoff
    restart_delay_reset_interval := other.restart_delay_reset_interval
    last_start := c.last_start
    quiet := other.quiet
    delete_wd40_env := other.delete_wd40_env
    deconfigured := other.deconfigured
    kill_on_configuration_change := other.kill_on_configuration_change }

/-- Embedding of `Command::operator!=` (lines 422-432): true when the
`commands` vectors have different sizes or differ at some index. -/
def Command.ne (c rhs : Command) : Bool :=
  if rhs.commands.length ≠ c.commands.length then true
  else (c.commands.zip rhs.commands).any (fun p => p.1 ≠ p.2)

/-- C `round` (round half away from zero) on a rational, as used at
line 440; the argument there is always the nonnegative current delay but
the function is modelled for all inputs. -/
def c_round (x : ℚ) : ℤ :=
  if 0 ≤ x then ⌊x + 1/2⌋ else -⌊-x + 1/2⌋

/-- Embedding of `Command::get_and_update_current_restart_delay`
(lines 434-443).  `now` is the value of `timer()` and `jitter` the value
drawn by `randomInt(floor(-0.1*current), ceil(0.1*current))`; the random
draw itself is an input of the model.  Returns the delay handed to
`start_process` together with the mutated Command. -/
def Command.get_and_update_current_restart_delay (cmd : Command) (now : ℚ)
    (jitter : ℤ) : ℤ × Command :=
  let cmd1 :=
    if now - cmd.last_start ≥ (cmd.restart_delay_reset_interval : ℚ) then
      { cmd with current_restart_delay := (cmd.initial_restart_delay : ℚ) }
    else cmd
  let delay : ℤ := max 0 (c_round cmd1.current_restart_delay + jitter)
  (delay,
    { cmd1 with
        current_restart_delay :=
          min (cmd1.max_restart_delay : ℚ)
            (cmd1.restart_backoff * max 1 cmd1.current_restart_delay) })

/-- The closed interval the source draws the jitter from (line 439):
`randomInt(floor(-0.1 * current), ceil(0.1 * current))`, where the
integral doubles are converted exactly to int. -/
def jitter_bounds (current : ℚ) : ℤ × ℤ :=
  (⌊-(1/10) * current⌋, ⌈(1/10) * current⌉)

/-- Modelled from the spec (section 4.5 bullets): first the conditional
reset of the current delay, then the returned delay
`max(0, round(current) + jitter)`, then the backoff advance
`current := min(max, restart_backoff * max(1.0, current))`.  Written from
the specification text, to be compared with the source embedding. -/
def spec_restart_delay_step (cmd : Command) (now : ℚ) (jitter : ℤ) :
    ℤ × Command :=
  let cur1 : ℚ :=
    if now - cmd.last_start ≥ (cmd.restart_delay_reset_interval : ℚ) then
      (cmd.initial_restart_delay : ℚ)
    else cmd.current_restart_delay
  let delay : ℤ := max 0 (c_round cur1 + jitter)
  let cur2 : ℚ :=
    min (cmd.max_restart_delay : ℚ) (cmd.restart_backoff * max 1 cur1)
  (delay, { cmd with current_restart_delay := cur2 })

/-! ## $ID expansion (lines 372-390) -/

/-- The literal pattern `$ID` searched for at line 386. -/
def dollarID : List Char := ['$', 'I', 'D']

/-- Whether a character list begins with the literal `$ID`. -/
def startsDollarID (l : List Char) : Bool :=
  decide (l.take 3 = dollarID)

/-- Embedding of the substitution loop at lines 384-387:
`while ((pos = opt.find("$ID", pos)) != opt.npos) opt.replace(pos, 3, id_s, strlen(id_s));`
The loop finds the leftmost occurrence at or after `pos`, splices in the
decimal id string, and resumes the search at the same `pos`.  Because the
spliced text consists of decimal digits only (it never contains a dollar
sign, `I` or `D`), resuming at `pos` finds the next occurrence strictly
after the spliced text, which is exactly this left-to-right scan. -/
def expand_id (idStr : List Char) : List Char → List Char
  | [] => []
  | c :: rest =>
    if startsDollarID (c :: rest) then
      idStr ++ expand_id idStr ((c :: rest).drop 3)
    else
      c :: expand_id idStr rest
termination_by l => l.length
decreasing_by
  · simp only [List.length_drop, List.length_cons]
    omega
  · simp only [List.length_cons]
    omega

/-- Whether the literal `$ID` occurs anywhere in a character list. -/
def hasID : List Char → Bool
  | [] => false
  | c :: rest => startsDollarID (c :: rest) || hasID rest

/-- Embedding of the argv entry built at line 389:
`std::string("--").append(i.pItem).append("=").append(opt)`, where `opt`
is the value after `$ID` substitution. -/
def forwarded_option (key val idStr : List Char) : List Char :=
  '-' :: '-' :: (key ++ '=' :: expand_id idStr val)

/-! ## strtoull and the instance-section id parse (lines 698-718) -/

/-- C `isspace` in the default locale. -/
def isSpaceChar (c : Char) : Bool :=
  c.toNat = 32 || (9 ≤ c.toNat && c.toNat ≤ 13)

/-- ASCII decimal digit test. -/
def isDigitChar (c : Char) : Bool :=
  decide ('0' ≤ c) && decide (c ≤ '9')

/-- Value of a list of decimal digit characters, most significant first. -/
def digitsVal (ds : List Char) : ℕ :=
  ds.foldl (fun a c => 10 * a + (c.toNat - 48)) 0

/-- Embedding of `strtoull(s, &end, 10)`: skip whitespace, consume an
optional sign, then a maximal run of decimal digits.  If no digit is
consumed the result is 0 and `end` is the original string.  An overflowing
magnitude is clamped to `ULLONG_MAX`; a minus sign negates the value in
the unsigned type, that is modulo `2^64`.  Returns the value together with
the remainder of the string after `end`. -/
def strtoull10 (s : List Char) : ℕ × List Char :=
  let t := s.dropWhile isSpaceChar
  let signed : Bool × List Char :=
    match t with
    | '-' :: r => (true, r)
    | '+' :: r => (false, r)
    | _ => (false, t)
  let ds := signed.2.takeWhile isDigitChar
  if ds.isEmpty then (0, s)
  else
    let mag := digitsVal ds
    let v :=
      if 2 ^ 64 ≤ mag then 2 ^ 64 - 1
      else if signed.1 then (2 ^ 64 - mag) % 2 ^ 64
      else mag
    (v, signed.2.dropWhile isDigitChar)

/-- Embedding of `strrchr(i.pItem, '.')` followed by the split into the
class prefix and the id suffix (lines 701-712): `none` when the section
name has no dot, otherwise the part before and the part after the last
dot. -/
def split_last_dot (s : List Char) : Option (List Char × List Char) :=
  let sufRev := s.reverse.takeWhile (fun c => c ≠ '.')
  if sufRev.length = s.length then none
  else some (s.take (s.length - sufRev.length - 1), sufRev.reverse)

/-- Modelled from the claim text: a suffix that is literally a non-zero
unsigned integer, that is a nonempty string of decimal digits with a
non-zero value.  Written from the specification words, to be compared
with what the source accepts. -/
def spec_nonzero_uint_suffix (s : List Char) : Bool :=
  !s.isEmpty && s.all isDigitChar && decide (digitsVal s ≠ 0)

/-! ## The process table (lines 446-448) -/

/-- The three global tables (lines 446-448): `id_command`, `pid_id` and
`id_pid`, each modelled as a function into Option (absent key = `none`). -/
structure Tables where
  pid_id : ℕ → Option ℕ
  id_pid : ℕ → Option ℕ
  id_command : ℕ → Option Command

/-- The initial state: all three maps empty. -/
def Tables.empty : Tables :=
  ⟨fun _ => none, fun _ => none, fun _ => none⟩

/-- Embedding of the per-section body of the newly-configured-sections
loop of `load_conf` (lines 700-718).  `cmd` is the Command the source
would construct for the section and `newPid` the pid `fork` returns in
`start_process` (fresh, supplied by the kernel).  The second component is
`some id` when a Command was created and started for the section, `none`
when the section was skipped (no dot), rejected as bogus, or already
running. -/
def process_new_section (T : Tables) (name : List Char) (cmd : Command)
    (newPid : ℕ) : Tables × Option ℕ :=
  match split_last_dot name with
  | none => (T, none)
  | some (_, suffix) =>
    let p := strtoull10 suffix
    if p.2 ≠ [] ∨ p.1 = 0 then (T, none)
    else if (T.id_pid p.1).isSome then (T, none)
    else
      (⟨Function.update T.pid_id newPid (some p.1),
        Function.update T.id_pid p.1 (some newPid),
        Function.update T.id_command p.1 (some cmd)⟩, some p.1)

/-! ## The reconciler decision for an existing instance (lines 668-694) -/

/-- Outcome of reconciling one running instance against its freshly
constructed candidate Command: the Command object left in `id_command`,
whether the stored object was replaced by the candidate, whether the
running child is terminated (`kill_process`: SIGTERM followed by a
synchronous `waitpid` on that pid, lines 582-592), and the delay of the
scheduled restart, if any (`start_process` is invoked with delay 0 at
line 693). -/
structure ReconcileResult where
  newCommand : Command
  replaced : Bool
  killed : Bool
  restartDelay : Option ℕ
deriving DecidableEq

/-- Embedding of the still-configured branch of `load_conf`
(lines 668-686): the stored Command is replaced by the candidate when
`operator!=` reports a difference or `kill_on_configuration_change` just
turned on; the kill and zero-delay restart additionally require the
candidate's `kill_on_configuration_change` to be true.  Otherwise the
stored Command absorbs the candidate via `update`. -/
def reconcile_existing (old cand : Command) : ReconcileResult :=
  if old.ne cand ∨ (cand.kill_on_configuration_change = true
      ∧ old.kill_on_configuration_change = false) then
    if cand.kill_on_configuration_change then
      ⟨cand, true, true, some 0⟩
    else
      ⟨cand, true, false, none⟩
  else
    ⟨old.update cand, false, false, none⟩

/-! ## The child-reaping pass, with raw unordered_map semantics
(lines 1253-1289) -/

/-- The tables as the reaping code actually sees them:
`id_command` maps an id to an entry that holds a `Command*`, which may be
the null pointer (`some none`) because `unordered_map::operator[]`
value-initialises a missing entry. -/
structure TablesR where
  pid_id : ℕ → Option ℕ
  id_pid : ℕ → Option ℕ
  id_command : ℕ → Option (Option Command)

/-- Outcome of reaping one pid: either the process dereferences a null
`Command*` at line 1269 (`cmd->deconfigured`) — undefined behaviour,
modelled as `crashed` together with the table state at that moment — or
the reap completes, with `restarted` telling whether `start_process` was
invoked for the id. -/
inductive ReapOutcome where
  | crashed (T : TablesR)
  | reaped (T : TablesR) (restarted : Bool)

/-- Embedding of the body of the reaping loop (lines 1263-1286) for one
reaped pid `p`, with the exact `unordered_map::operator[]` semantics:
`uint64_t id = pid_id[pid]` value-initialises a missing entry to 0, and
`Command* cmd = id_command[id]` value-initialises a missing entry to the
null pointer.  Both maps then have the reaped keys erased (lines
1266-1267); the pid entry that may just have been inserted is erased
again, so `pid_id` is restored.  If the Command is deconfigured it is
destroyed and its entry erased (lines 1269-1272); otherwise the restart
delay is computed and `start_process` is called (lines 1274-1285), which
on fork success records `newPid` (lines 529-531). -/
def reap_one (T : TablesR) (p : ℕ) (newPid : ℕ) (now : ℚ) (jitter : ℤ) :
    ReapOutcome :=
  let id := (T.pid_id p).getD 0
  let cmdPtr : Option Command := (T.id_command id).getD none
  let idc := Function.update T.id_command id (some cmdPtr)
  let pid1 := Function.update T.pid_id p none
  let idp1 := Function.update T.id_pid id none
  match cmdPtr with
  | none => .crashed ⟨pid1, idp1, idc⟩
  | some cmd =>
    if cmd.deconfigured then
      .reaped ⟨pid1, idp1, Function.update idc id none⟩ false
    else
      let dc := cmd.get_and_update_current_restart_delay now jitter
      .reaped
        ⟨Function.update pid1 newPid (some id),
         Function.update idp1 id (some newPid),
         Function.update idc id
           (some (some { dc.2 with last_start := now + (dc.1 : ℚ) }))⟩ true

/-- Whether a reap outcome is the null-pointer dereference. -/
def ReapOutcome.isCrash : ReapOutcome → Bool
  | .crashed _ => true
  | .reaped _ _ => false

/-- The `id_command` table of a reap outcome's final state. -/
def ReapOutcome.idCommand : ReapOutcome → ℕ → Option (Option Command)
  | .crashed T => T.id_command
  | .reaped T _ => T.id_command

/-- The `pid_id` table of a reap outcome's final state. -/
def ReapOutcome.pidId : ReapOutcome → ℕ → Option ℕ
  | .crashed T => T.pid_id
  | .reaped T _ => T.pid_id

/-- The all-empty raw table state. -/
def TablesR.empty : TablesR :=
  ⟨fun _ => none, fun _ => none, fun _ => none⟩

/-! ## Quiescent-point transitions of the process table

Each constructor is the net effect on the three tables of one operation
the source performs between quiescent points.  A reap of a pid that is
not in `pid_id` dereferences a null `Command*` (see `reap_one`), so no
quiescent point follows it and it has no constructor here. -/

/-- The table transitions of the supervisor. -/
inductive Step : Tables → Tables → Prop
  /-- `start_process` success (lines 462-532): `fork` returns a fresh pid
  `p` (the kernel never returns a pid that is still an unreaped child, so
  `p` is not in `pid_id`), `last_start` is set to `timer() + delay`
  (line 529) and the pid tables gain the pair (lines 530-531).  At every
  call site the id is not currently running. -/
  | start_child (T : Tables) (i p : ℕ) (cmd : Command) (now delay : ℚ)
      (hc : T.id_command i = some cmd) (hi : T.id_pid i = none)
      (hp : T.pid_id p = none) :
      Step T
        ⟨Function.update T.pid_id p (some i),
         Function.update T.id_pid i (some p),
         Function.update T.id_command i
           (some { cmd with last_start := now + delay })⟩
  /-- `start_process` failure (fork error or null argv, lines 463-470):
  no table changes. -/
  | start_child_failed (T : Tables) :
      Step T T
  /-- `kill_process` (lines 582-592): SIGTERM, synchronous `waitpid`,
  then both pid-table entries are erased.  Called only on running ids. -/
  | kill_child (T : Tables) (i p : ℕ) (hi : T.id_pid i = some p) :
      Step T
        ⟨Function.update T.pid_id p none,
         Function.update T.id_pid i none,
         T.id_command⟩
  /-- Net effect on a running id of the uid/gid-change kill loop
  (lines 636-648) and of the deconfigured branch with
  `kill_on_configuration_change` (lines 658-667 plus the deferred
  `kill_process` at lines 689-690): the Command is destroyed and all
  three entries are gone when `load_conf` returns. -/
  | erase_instance (T : Tables) (i p : ℕ) (hi : T.id_pid i = some p) :
      Step T
        ⟨Function.update T.pid_id p none,
         Function.update T.id_pid i none,
         Function.update T.id_command i none⟩
  /-- Writes of `id_command[i]`: the deconfigured flag set at line 661,
  the replacement at line 675, the options update at line 683 and the
  new-section insertion at line 713 all store a (non-null) Command. -/
  | set_command (T : Tables) (i : ℕ) (cmd : Command) :
      Step T
        ⟨T.pid_id, T.id_pid,
         Function.update T.id_command i (some cmd)⟩
  /-- Reap of a known pid whose Command is deconfigured
  (lines 1263-1272): both pid entries erased, Command destroyed. -/
  | reap_deconfigured (T : Tables) (p i : ℕ) (cmd : Command)
      (hp : T.pid_id p = some i) (hc : T.id_command i = some cmd)
      (hd : cmd.deconfigured = true) :
      Step T
        ⟨Function.update T.pid_id p none,
         Function.update T.id_pid i none,
         Function.update T.id_command i none⟩
  /-- Reap of a known pid whose Command is still configured
  (lines 1263-1267 and 1274): both pid entries erased and the restart
  delay advanced; the subsequent `start_process` is a separate
  `start_child` step (or `start_child_failed` when fork fails). -/
  | reap_restartable (T : Tables) (p i : ℕ) (cmd : Command) (now : ℚ)
      (jitter : ℤ) (hp : T.pid_id p = some i)
      (hc : T.id_command i = some cmd) (hd : cmd.deconfigured = false) :
      Step T
        ⟨Function.update T.pid_id p none,
         Function.update T.id_pid i none,
         Function.update T.id_command i
           (some (cmd.get_and_update_current_restart_delay now jitter).2)⟩

/-- A table state the supervisor can be in at a quiescent point, starting
from the empty tables at program start. -/
def TablesReachable (T : Tables) : Prop :=
  Relation.ReflTransGen Step Tables.empty T

/-! ## Reachable Command states (for the delay-bounds invariant) -/

/-- The states of one Command's numeric fields that the source can
produce: freshly (and successfully) constructed, updated from a freshly
constructed candidate (line 683), or stepped by
`get_and_update_current_restart_delay` (line 1274). -/
inductive Command.Reachable : Command → Prop
  | constructed (rd : ℕ) (mrd : Option ℕ) (rbo : Option ℚ) (rdri : Option ℕ)
      (cmds : List String) (quiet dwe kocc : Bool) (c : Command)
      (h : Command.construct rd mrd rbo rdri cmds quiet dwe kocc = some c) :
      Command.Reachable c
  | updated (c : Command) (rd : ℕ) (mrd : Option ℕ) (rbo : Option ℚ)
      (rdri : Option ℕ) (cmds : List String) (quiet dwe kocc : Bool)
      (o : Command) (hc : Command.Reachable c)
      (h : Command.construct rd mrd rbo rdri cmds quiet dwe kocc = some o) :
      Command.Reachable (c.update o)
  | stepped (c : Command) (now : ℚ) (jitter : ℤ) (hc : Command.Reachable c) :
      Command.Reachable (c.get_and_update_current_restart_delay now jitter).2

/-! ## Meta-key resolution levels (lines 294-364) -/

/-- The eight meta-keys excluded from option forwarding (lines 375-377). -/
def meta_keys : List String :=
  ["command", "restart_delay", "initial_restart_delay", "restart_backoff",
   "restart_delay_reset_interval", "disable_lifecycle_logging",
   "delete_wd40_env", "kill_on_configuration_change"]

/-- The meta-keys whose `get_value_multi` call lists a fourth
"fdbmonitor" level in the constructor (lines 295, 308, 322, 338). -/
def four_level_keys : List String :=
  ["restart_delay", "initial_restart_delay", "restart_backoff",
   "restart_delay_reset_interval"]

/-- The section fallback list the constructor passes to `get_value_multi`
for a given meta-key: the instance section `ss`, the class section `sec`,
"general", and — only for the four delay/backoff keys — "fdbmonitor"
(compare lines 295/308/322/338 with lines 350/354/359/364). -/
def meta_key_sections (key ss sec : String) : List String :=
  if key ∈ four_level_keys then [ss, sec, "general", "fdbmonitor"]
  else [ss, sec, "general"]

/-- Resolution of a meta-key as the source performs it. -/
def resolve_meta (ini : String → String → Option String)
    (key ss sec : String) : Option String :=
  get_value_multi ini key (meta_key_sections key ss sec)

/-- Modelled from the claim text: every meta-key resolves with the same
four-level fallback instance, class, general, fdbmonitor.  Written from
the specification words, to be compared with `resolve_meta`. -/
def resolve_meta_claimed (ini : String → String → Option String)
    (key ss sec : String) : Option String :=
  get_value_multi ini key [ss, sec, "general", "fdbmonitor"]

/-- An INI with the `command` key present only in the top-level
`[fdbmonitor]` section. -/
def ini6 : String → String → Option String :=
  fun sec key =>
    if sec = "fdbmonitor" ∧ key = "command" then some "/usr/bin/fdbserver"
    else none

/-! ## Concrete Commands for the reconciler claims -/

/-- A running Command with argv `["a"]` and
`kill_on_configuration_change = false`. -/
def cmdOldA : Command :=
  ⟨["a"], 0, 0, 0, 0, 0, 0, false, false, false, false⟩

/-- A candidate Command with argv `["b"]` and
`kill_on_configuration_change = false`. -/
def cmdCandB : Command :=
  ⟨["b"], 0, 0, 0, 0, 0, 0, false, false, false, false⟩

/-- A Command used as the constructed candidate in concrete
section-parsing scenarios. -/
def cmd9 : Command :=
  ⟨["x"], 0, 0, 0, 0, 0, 0, false, false, false, true⟩

/-- A successfully constructed Command:
`Command.construct 10 (some 3) (some 2) (some 5) [] false false true`. -/
def c7ex : Command :=
  ⟨[], 3, 10, 3, 2, 5, 0, false, false, false, true⟩

/-- The strengthened per-Command invariant maintained by construction,
`update` and `get_and_update_current_restart_delay`: the delay bounds of
the claim plus the facts about `restart_backoff` that successful
construction establishes and that the delay step needs. -/
def Command.Good (c : Command) : Prop :=
  c.initial_restart_delay ≤ c.max_restart_delay
  ∧ (c.initial_restart_delay : ℚ) ≤ c.current_restart_delay
  ∧ c.current_restart_delay ≤ (c.max_restart_delay : ℚ)
  ∧ (1 ≤ c.restart_backoff
      ∨ (c.max_restart_delay = 0 ∧ c.restart_backoff = 0))

/-- The invariant of the three process tables claimed at quiescent
points: `pid_id` and `id_pid` are mutual inverses and every id mentioned
by either has a Command. -/
def Tables.Consistent (T : Tables) : Prop :=
  (∀ p i, T.pid_id p = some i ↔ T.id_pid i = some p)
  ∧ (∀ p i, T.pid_id p = some i → (T.id_command i).isSome = true)
  ∧ (∀ i p, T.id_pid i = some p → (T.id_command i).isSome = true)

/-! ## Helper lemmas about configuration lookup -/

lemma get_value_multi_cons_some {ini : String → String → Option String}
    {key sec v : String} (h : ini sec key = some v) (l : List String) :
    get_value_multi ini key (sec :: l) = some v := by
  simp [get_value_multi, h]

lemma get_value_multi_cons_none {ini : String → String → Option String}
    {key sec : String} (h : ini sec key = none) (l : List String) :
    get_value_multi ini key (sec :: l) = get_value_multi ini key l := by
  simp [get_value_multi, h]

lemma get_value_multi_eq_none {ini : String → String → Option String}
    {key : String} :
    ∀ l : List String,
      get_value_multi ini key l = none ↔ ∀ s ∈ l, ini s key = none := by
  intro l
  induction l with
  | nil => simp [get_value_multi]
  | cons sec rest ih =>
    cases h : ini sec key with
    | none => simp [get_value_multi_cons_none h, ih, h]
    | some v =>
      simp only [get_value_multi_cons_some h]
      simp only [List.mem_cons]
      constructor
      · intro hc
        exact absurd hc (by simp)
      · intro hall
        have := hall sec (Or.inl rfl)
        rw [h] at this
        exact absurd this (by simp)

/-! ## C2: the restart-delay algorithm -/

/-- C2: for a child exit that is not a deconfiguration, with `c` the
current restart delay at entry, the source performs exactly the four spec
steps: reset `c` to `initial_restart_delay` when
`now - last_start ≥ restart_delay_reset_interval`; draw the jitter in
`[⌊-0.1c⌋, ⌈0.1c⌉]` (the interval `jitter_bounds c`, an input of both
models); return `max(0, round(c) + jitter)`; and leave
`current_restart_delay = min(max_restart_delay, restart_backoff * max(1, c))`. -/
theorem restart_delay_algorithm_refines_spec (cmd : Command) (now : ℚ)
    (jitter : ℤ) :
    cmd.get_and_update_current_restart_delay now jitter
      = spec_restart_delay_step cmd now jitter := by
  unfold Command.get_and_update_current_restart_delay spec_restart_delay_step
  by_cases h : now - cmd.last_start ≥ (cmd.restart_delay_reset_interval : ℚ) <;>
    simp [h]

/-! ## C5: the kill_on_configuration_change parse -/

/-- C5: the flag is resolved through the instance, class and general
sections; it is true when the key is absent at all three levels, false
whenever the resolved value is anything other than the literal string
"true", and true exactly when the key is absent or resolves to "true". -/
theorem kill_on_configuration_change_parse
    (ini : String → String → Option String) (ss sec : String) :
    (get_value_multi ini "kill_on_configuration_change" [ss, sec, "general"] = none
       ↔ ini ss "kill_on_configuration_change" = none
         ∧ ini sec "kill_on_configuration_change" = none
         ∧ ini "general" "kill_on_configuration_change" = none)
    ∧ (∀ s,
        get_value_multi ini "kill_on_configuration_change" [ss, sec, "general"]
            = some s
          → s ≠ "true"
          → kocc_flag (get_value_multi ini "kill_on_configuration_change"
              [ss, sec, "general"]) = false)
    ∧ (kocc_flag (get_value_multi ini "kill_on_configuration_change"
          [ss, sec, "general"]) = true
       ↔ get_value_multi ini "kill_on_configuration_change"
             [ss, sec, "general"] = none
         ∨ get_value_multi ini "kill_on_configuration_change"
             [ss, sec, "general"] = some "true") := by
  refine ⟨?_, ?_, ?_⟩
  · rw [get_value_multi_eq_none]
    simp
  · intro s hs hne
    rw [hs]
    simp [kocc_flag, hne]
  · cases hv : get_value_multi ini "kill_on_configuration_change"
        [ss, sec, "general"] with
    | none => simp [kocc_flag]
    | some s =>
      by_cases h : s = "true" <;> simp [kocc_flag, h]

/-- Witness for C5: with an INI that sets the key to "false" in the class
section, the flag resolves to false; with an empty INI it is true. -/
theorem kill_on_configuration_change_parse_witness :
    kocc_flag (get_value_multi
        (fun s k => if s = "worker" ∧ k = "kill_on_configuration_change"
          then some "false" else none)
        "kill_on_configuration_change" ["worker.1", "worker", "general"]) = false :=
  (kill_on_configuration_change_parse
      (fun s k => if s = "worker" ∧ k = "kill_on_configuration_change"
        then some "false" else none)
      "worker.1" "worker").2.1 "false" (by decide) (by decide)

/-! ## C10: the exit-signal latch -/

/-- C10: the handler stores the numeric maximum of the stored and the
arriving signal number, `SIGHUP < SIGINT < SIGTERM`, and once the stored
value is SIGINT or SIGTERM no later delivery sequence (in particular no
SIGHUP) can lower it back to SIGHUP, so a pending shutdown request is
never downgraded to the SIGHUP no-op branch of the event loop. -/
theorem exit_signal_monotone (s : ℕ) (sigs : List ℕ)
    (h : s = SIGINT ∨ s = SIGTERM) :
    (∀ a b, signal_handler a b = max a b)
    ∧ SIGHUP < SIGINT ∧ SIGINT < SIGTERM
    ∧ signal_handler s SIGHUP = s
    ∧ s ≤ deliver_signals s sigs
    ∧ deliver_signals s sigs ≠ SIGHUP := by
  have hmax : ∀ a b, signal_handler a b = max a b := by
    intro a b
    simp only [signal_handler, Nat.max_def]
    split <;> split <;> omega
  have hle : ∀ (l : List ℕ) (a : ℕ), a ≤ deliver_signals a l := by
    intro l
    induction l with
    | nil => intro a; exact le_refl a
    | cons b t ih =>
      intro a
      have h1 : a ≤ signal_handler a b := by rw [hmax]; exact le_max_left a b
      exact le_trans h1 (ih (signal_handler a b))
  have hs2 : 2 ≤ s := by
    rcases h with h | h <;> simp [h, SIGINT, SIGTERM]
  refine ⟨hmax, by simp [SIGHUP, SIGINT], by simp [SIGINT, SIGTERM], ?_, hle sigs s, ?_⟩
  · rw [hmax]
    have : SIGHUP ≤ s := le_trans (by simp [SIGHUP]) hs2
    omega
  · have := hle sigs s
    intro hcontra
    rw [hcontra] at this
    simp [SIGHUP] at this
    omega

/-- Witness for C10: starting from a stored SIGINT, delivering SIGHUP then
SIGTERM never yields SIGHUP and SIGHUP alone does not overwrite SIGINT. -/
theorem exit_signal_monotone_witness :
    signal_handler SIGINT SIGHUP = SIGINT
    ∧ deliver_signals SIGINT [SIGHUP, SIGTERM] ≠ SIGHUP :=
  ⟨(exit_signal_monotone SIGINT [SIGHUP, SIGTERM] (Or.inl rfl)).2.2.2.1,
   (exit_signal_monotone SIGINT [SIGHUP, SIGTERM] (Or.inl rfl)).2.2.2.2.2⟩

/-! ## C3: the reconciler on a changed instance -/

/-- C3 counterexample: with the running Command `cmdOldA` (argv `["a"]`,
kill flag false) and the candidate `cmdCandB` (argv `["b"]`, kill flag
false), argv differs element-wise, yet the reconciler only replaces the
stored Command: it does not terminate the running child and does not
restart it, contradicting the claim that an argv change always entails a
kill and an immediate restart. -/
theorem reconcile_argv_change_no_kill_counterexample :
    cmdOldA.ne cmdCandB = true
    ∧ (reconcile_existing cmdOldA cmdCandB).replaced = true
    ∧ (reconcile_existing cmdOldA cmdCandB).killed = false
    ∧ (reconcile_existing cmdOldA cmdCandB).restartDelay = none := by
  decide

/-- C3 (amended): if argv differs or `kill_on_configuration_change`
transitioned from false to true, the stored Command is replaced by the
candidate; the current child is terminated (SIGTERM followed by a
synchronous waitpid, `kill_process`) and immediately restarted with
delay 0 exactly when the candidate's `kill_on_configuration_change` is
true. -/
theorem reconcile_existing_replacement_policy (old cand : Command)
    (h : old.ne cand = true
      ∨ (cand.kill_on_configuration_change = true
          ∧ old.kill_on_configuration_change = false)) :
    (reconcile_existing old cand).newCommand = cand
    ∧ (reconcile_existing old cand).replaced = true
    ∧ (reconcile_existing old cand).killed = cand.kill_on_configuration_change
    ∧ (reconcile_existing old cand).restartDelay
        = (if cand.kill_on_configuration_change then some 0 else none) := by
  unfold reconcile_existing
  rw [if_pos h]
  by_cases hk : cand.kill_on_configuration_change <;> simp [hk]

/-- Witness for C3 (amended) at the concrete pair `cmdOldA`, `cmdCandB`. -/
theorem reconcile_existing_replacement_policy_witness :
    (reconcile_existing cmdOldA cmdCandB).newCommand = cmdCandB
    ∧ (reconcile_existing cmdOldA cmdCandB).replaced = true
    ∧ (reconcile_existing cmdOldA cmdCandB).killed
        = cmdCandB.kill_on_configuration_change
    ∧ (reconcile_existing cmdOldA cmdCandB).restartDelay
        = (if cmdCandB.kill_on_configuration_change then some 0 else none) :=
  reconcile_existing_replacement_policy cmdOldA cmdCandB (Or.inl (by decide))

/-! ## C6: the meta-key fallback levels -/

/-- C6 counterexample: `command` is a meta-key, but with an INI whose
only `command` entry sits in the top-level `[fdbmonitor]` section the
source resolves nothing — its fallback list for `command` stops at
"general" — while the claimed uniform four-level fallback would resolve
the `[fdbmonitor]` value. -/
theorem meta_key_fallback_counterexample :
    "command" ∈ meta_keys
    ∧ resolve_meta ini6 "command" "fdbserver.1" "fdbserver" = none
    ∧ resolve_meta_claimed ini6 "command" "fdbserver.1" "fdbserver"
        = some "/usr/bin/fdbserver" := by
  refine ⟨by decide, ?_, ?_⟩ <;> rfl

/-- C6 (amended): every meta-key resolves instance first, then class,
then general; only the four numeric delay/backoff keys (`restart_delay`,
`initial_restart_delay`, `restart_backoff`,
`restart_delay_reset_interval`) fall back to a fourth, top-level
`[fdbmonitor]` level, while `command`, `disable_lifecycle_logging`,
`delete_wd40_env` and `kill_on_configuration_change` resolve to nothing
when absent from the first three levels. -/
theorem meta_key_fallback_levels (ini : String → String → Option String)
    (key ss sec : String) :
    (∀ v, ini ss key = some v → resolve_meta ini key ss sec = some v)
    ∧ (ini ss key = none → ∀ v, ini sec key = some v
        → resolve_meta ini key ss sec = some v)
    ∧ (ini ss key = none → ini sec key = none
        → ∀ v, ini "general" key = some v
        → resolve_meta ini key ss sec = some v)
    ∧ (ini ss key = none → ini sec key = none → ini "general" key = none
        → resolve_meta ini key ss sec
            = if key ∈ four_level_keys then ini "fdbmonitor" key else none) := by
  unfold resolve_meta meta_key_sections
  by_cases hf : key ∈ four_level_keys <;>
    · simp only [hf, if_true, if_false]
      refine ⟨?_, ?_, ?_, ?_⟩
      · intro v hv
        exact get_value_multi_cons_some hv _
      · intro h1 v hv
        rw [get_value_multi_cons_none h1]
        exact get_value_multi_cons_some hv _
      · intro h1 h2 v hv
        rw [get_value_multi_cons_none h1, get_value_multi_cons_none h2]
        exact get_value_multi_cons_some hv _
      · intro h1 h2 h3
        rw [get_value_multi_cons_none h1, get_value_multi_cons_none h2,
          get_value_multi_cons_none h3]
        first
        | (cases hm : ini "fdbmonitor" key with
            | none => rw [get_value_multi_cons_none hm]; rfl
            | some v => exact get_value_multi_cons_some hm _)
        | rfl

/-- Witness for C6 (amended): with `ini6`, the `command` key (not a
four-level key) resolves to nothing although `[fdbmonitor]` carries it. -/
theorem meta_key_fallback_levels_witness :
    resolve_meta ini6 "command" "fdbserver.1" "fdbserver"
      = if "command" ∈ four_level_keys then ini6 "fdbmonitor" "command"
        else none :=
  (meta_key_fallback_levels ini6 "command" "fdbserver.1" "fdbserver").2.2.2
    rfl rfl rfl

/-! ## C4: reaping an unknown pid -/

/-- C4: the reaping pass does not ignore a pid absent from `pid_id`.
Evaluated at the failing input (reaped pid 42 with all tables empty):
`uint64_t id = pid_id[pid]` default-inserts and yields id 0,
`Command* cmd = id_command[id]` default-inserts a null `Command*` entry
for id 0 — so `id_command` is modified, contrary to the claim — and the
subsequent `cmd->deconfigured` dereferences the null pointer, so the pass
crashes instead of ignoring the reap. -/
theorem reap_unknown_pid_null_dereference :
    TablesR.empty.pid_id 42 = none
    ∧ TablesR.empty.id_command 0 = none
    ∧ (reap_one TablesR.empty 42 0 0 0).isCrash = true
    ∧ (reap_one TablesR.empty 42 0 0 0).idCommand 0 = some none := by
  refine ⟨rfl, rfl, rfl, ?_⟩
  simp [reap_one, TablesR.empty, ReapOutcome.idCommand]

/-! ## C9: acceptance of instance-section id suffixes -/

/-- C9 counterexample: the suffix "-1" is not a non-zero unsigned
integer (it is not a digit string), yet for the section name
"worker.-1" the source's `strtoull` consumes the whole suffix and
returns `2^64 - 1`, which passes the `id > 0` check, so a Command is
created and started instead of the section being rejected. -/
theorem section_id_parse_counterexample :
    spec_nonzero_uint_suffix ['-', '1'] = false
    ∧ split_last_dot ("worker.-1".toList)
        = some ("worker".toList, ['-', '1'])
    ∧ strtoull10 ['-', '1'] = (2 ^ 64 - 1, [])
    ∧ (process_new_section Tables.empty ("worker.-1".toList) cmd9 100).2
        = some (2 ^ 64 - 1) := by
  refine ⟨by decide, by decide, by decide, ?_⟩
  rfl

/-- C9 (amended): for a section name containing a dot, a Command is
created and started only when base-10 `strtoull` consumes the entire
suffix after the last dot with a non-zero result — which also accepts
leading whitespace and a sign, e.g. "-1" wrapping to `2^64 - 1` — and
the id is not already running; any suffix `strtoull` cannot fully
consume, or whose value is zero, is rejected with a log message and the
tables are left unchanged. -/
theorem section_id_parse_policy (T : Tables) (name : List Char)
    (cmd : Command) (newPid : ℕ) (sec suffix : List Char)
    (hsplit : split_last_dot name = some (sec, suffix)) :
    ((strtoull10 suffix).2 ≠ [] ∨ (strtoull10 suffix).1 = 0 →
        process_new_section T name cmd newPid = (T, none))
    ∧ (∀ id, (process_new_section T name cmd newPid).2 = some id →
        (strtoull10 suffix).2 = [] ∧ id = (strtoull10 suffix).1 ∧ id ≠ 0
          ∧ T.id_pid id = none) := by
  constructor
  · intro hbad
    simp only [process_new_section, hsplit]
    rw [if_pos hbad]
  · intro id hid
    simp only [process_new_section, hsplit] at hid
    by_cases h1 : (strtoull10 suffix).2 ≠ [] ∨ (strtoull10 suffix).1 = 0
    · rw [if_pos h1] at hid
      exact absurd hid (by simp)
    · rw [if_neg h1] at hid
      push_neg at h1
      by_cases h2 : (T.id_pid (strtoull10 suffix).1).isSome = true
      · rw [if_pos h2] at hid
        exact absurd hid (by simp)
      · rw [if_neg h2] at hid
        simp only [Prod.snd] at hid
        have hide : id = (strtoull10 suffix).1 := by
          have := hid
          simp at this
          omega
        refine ⟨h1.1, hide, ?_, ?_⟩
        · rw [hide]; exact h1.2
        · rw [hide]
          simpa using h2

/-- Witness for C9 (amended): the section "worker.1x" has the suffix
"1x", which `strtoull` cannot fully consume, so nothing happens. -/
theorem section_id_parse_policy_witness :
    process_new_section Tables.empty ("worker.1x".toList) cmd9 100
      = (Tables.empty, none) :=
  (section_id_parse_policy Tables.empty ("worker.1x".toList) cmd9 100
      ("worker".toList) ("1x".toList) (by decide)).1 (Or.inl (by decide))

/-! ## C7: delay bounds hold at every observable point -/

lemma construct_backoff_default (rd : ℕ) :
    1 ≤ (rd : ℚ) ∨ (rd = 0 ∧ (rd : ℚ) = 0) := by
  rcases Nat.eq_zero_or_pos rd with h0 | h1
  · exact Or.inr ⟨h0, by simp [h0]⟩
  · exact Or.inl (by exact_mod_cast h1)

lemma construct_good {rd : ℕ} {mrd : Option ℕ} {rbo : Option ℚ}
    {rdri : Option ℕ} {cmds : List String} {quiet dwe kocc : Bool}
    {c : Command}
    (h : Command.construct rd mrd rbo rdri cmds quiet dwe kocc = some c) :
    c.Good := by
  cases mrd with
  | none =>
    cases rbo with
    | none =>
      simp only [Command.construct] at h
      obtain rfl := Option.some_injective _ h
      exact ⟨Nat.zero_le rd, le_refl _, Nat.cast_le.mpr (Nat.zero_le rd),
        construct_backoff_default rd⟩
    | some b =>
      simp only [Command.construct] at h
      by_cases hb : b < 1
      · rw [if_pos hb] at h
        exact absurd h (by simp)
      · rw [if_neg hb] at h
        obtain rfl := Option.some_injective _ h
        exact ⟨Nat.zero_le rd, le_refl _, Nat.cast_le.mpr (Nat.zero_le rd),
          Or.inl (not_lt.mp hb)⟩
  | some v =>
    cases rbo with
    | none =>
      simp only [Command.construct] at h
      obtain rfl := Option.some_injective _ h
      exact ⟨min_le_left rd v, le_refl _, Nat.cast_le.mpr (min_le_left rd v),
        construct_backoff_default rd⟩
    | some b =>
      simp only [Command.construct] at h
      by_cases hb : b < 1
      · rw [if_pos hb] at h
        exact absurd h (by simp)
      · rw [if_neg hb] at h
        obtain rfl := Option.some_injective _ h
        exact ⟨min_le_left rd v, le_refl _, Nat.cast_le.mpr (min_le_left rd v),
          Or.inl (not_lt.mp hb)⟩

lemma update_good {c o : Command} (ho : o.Good) : (c.update o).Good := by
  obtain ⟨h1, _, _, h4⟩ := ho
  refine ⟨h1, le_max_left _ _, ?_, h4⟩
  exact max_le (Nat.cast_le.mpr h1) (min_le_left _ _)

lemma backoff_advance_lower {ini maxd : ℕ} {bo cur1 : ℚ}
    (h1 : ini ≤ maxd) (hcur : (ini : ℚ) ≤ cur1)
    (h4 : 1 ≤ bo ∨ (maxd = 0 ∧ bo = 0)) :
    (ini : ℚ) ≤ min (maxd : ℚ) (bo * max 1 cur1) := by
  refine le_min (Nat.cast_le.mpr h1) ?_
  rcases h4 with hb | ⟨hm0, hb0⟩
  · have hpos : (0 : ℚ) ≤ max 1 cur1 := le_trans zero_le_one (le_max_left _ _)
    calc (ini : ℚ) ≤ max 1 cur1 := le_trans hcur (le_max_right _ _)
      _ = 1 * max 1 cur1 := (one_mul _).symm
      _ ≤ bo * max 1 cur1 := mul_le_mul_of_nonneg_right hb hpos
  · have hi0 : ini = 0 := Nat.le_zero.mp (hm0 ▸ h1)
    rw [hi0, hb0]
    simp

lemma step_good {c : Command} (hc : c.Good) (now : ℚ) (jitter : ℤ) :
    ((c.get_and_update_current_restart_delay now jitter).2).Good := by
  obtain ⟨h1, h2, h3, h4⟩ := hc
  unfold Command.get_and_update_current_restart_delay
  by_cases hreset : now - c.last_start ≥ (c.restart_delay_reset_interval : ℚ)
  · simp only [if_pos hreset]
    exact ⟨h1, backoff_advance_lower h1 (le_refl _) h4, min_le_left _ _, h4⟩
  · simp only [if_neg hreset]
    exact ⟨h1, backoff_advance_lower h1 h2 h4, min_le_left _ _, h4⟩

lemma reachable_good {c : Command} (h : Command.Reachable c) : c.Good := by
  induction h with
  | constructed rd mrd rbo rdri cmds quiet dwe kocc c hcon =>
    exact construct_good hcon
  | updated c rd mrd rbo rdri cmds quiet dwe kocc o hc hcon ih =>
    exact update_good (construct_good hcon)
  | stepped c now jitter hc ih =>
    exact step_good ih now jitter

/-- C7: for every Command whose numeric fields parsed successfully —
that is, every Command state the source can produce by construction, by
`update` from a freshly constructed candidate, or by
`get_and_update_current_restart_delay` —
`initial_restart_delay ≤ current_restart_delay ≤ max_restart_delay`. -/
theorem restart_delay_bounds_invariant (c : Command)
    (h : Command.Reachable c) :
    (c.initial_restart_delay : ℚ) ≤ c.current_restart_delay
    ∧ c.current_restart_delay ≤ (c.max_restart_delay : ℚ) := by
  obtain ⟨_, h2, h3, _⟩ := reachable_good h
  exact ⟨h2, h3⟩

/-- Witness for C7: the bounds hold at the concretely constructed
Command `c7ex`. -/
theorem restart_delay_bounds_invariant_witness :
    (c7ex.initial_restart_delay : ℚ) ≤ c7ex.current_restart_delay
    ∧ c7ex.current_restart_delay ≤ (c7ex.max_restart_delay : ℚ) :=
  restart_delay_bounds_invariant c7ex
    (Command.Reachable.constructed 10 (some 3) (some 2) (some 5) []
      false false true c7ex (by decide))

/-! ## C8: $ID expansion -/

lemma digit_ne_dollar {c : Char} (h : isDigitChar c = true) : c ≠ '$' := by
  intro hc
  rw [hc] at h
  exact absurd h (by decide)

lemma digit_ne_I {c : Char} (h : isDigitChar c = true) : c ≠ 'I' := by
  intro hc
  rw [hc] at h
  exact absurd h (by decide)

lemma digit_ne_D {c : Char} (h : isDigitChar c = true) : c ≠ 'D' := by
  intro hc
  rw [hc] at h
  exact absurd h (by decide)

lemma expand_id_nil (idStr : List Char) : expand_id idStr [] = [] := by
  rw [expand_id]

lemma expand_id_pos {idStr : List Char} {c : Char} {t : List Char}
    (h : startsDollarID (c :: t) = true) :
    expand_id idStr (c :: t) = idStr ++ expand_id idStr ((c :: t).drop 3) := by
  rw [expand_id]
  simp [h]

lemma expand_id_neg {idStr : List Char} {c : Char} {t : List Char}
    (h : startsDollarID (c :: t) = false) :
    expand_id idStr (c :: t) = c :: expand_id idStr t := by
  rw [expand_id]
  simp [h]

lemma starts_false_of_ne_dollar {c : Char} (hc : c ≠ '$') (l : List Char) :
    startsDollarID (c :: l) = false := by
  simp [startsDollarID, dollarID, List.take_succ_cons, hc]

lemma hasID_cons (c : Char) (t : List Char) :
    hasID (c :: t) = (startsDollarID (c :: t) || hasID t) := rfl

lemma hasID_append_digits {idStr : List Char}
    (hdig : ∀ c ∈ idStr, isDigitChar c = true) (ys : List Char) :
    hasID (idStr ++ ys) = hasID ys := by
  induction idStr with
  | nil => rfl
  | cons c xs ih =>
    have hc : c ≠ '$' := digit_ne_dollar (hdig c (by simp))
    rw [List.cons_append, hasID_cons, starts_false_of_ne_dollar hc,
      ih (fun d hd => hdig d (by simp [hd]))]
    simp

lemma expand_head_ne (idStr : List Char)
    (hdig : ∀ c ∈ idStr, isDigitChar c = true) (hne : idStr ≠ [])
    (x : Char) (hx : isDigitChar x = false) :
    ∀ t : List Char, t.head? ≠ some x → (expand_id idStr t).head? ≠ some x := by
  intro t ht
  cases t with
  | nil =>
    rw [expand_id_nil]
    simp
  | cons c r =>
    by_cases hs : startsDollarID (c :: r) = true
    · rw [expand_id_pos hs]
      cases idStr with
      | nil => exact absurd rfl hne
      | cons d id2 =>
        have hd : isDigitChar d = true := hdig d (by simp)
        simp only [List.cons_append, List.head?_cons]
        intro hcontra
        rw [Option.some_inj] at hcontra
        rw [hcontra] at hd
        rw [hd] at hx
        exact absurd hx (by simp)
    · rw [expand_id_neg (Bool.not_eq_true _ ▸ hs : startsDollarID (c :: r) = false)]
      simpa using fun hcx => ht (by simp [hcx])

lemma expand_not_starts (idStr : List Char)
    (hdig : ∀ c ∈ idStr, isDigitChar c = true) (hne : idStr ≠ []) :
    ∀ (c : Char) (t : List Char), startsDollarID (c :: t) = false →
      startsDollarID (c :: expand_id idStr t) = false := by
  intro c t hst
  by_cases hc : c = '$'
  · subst hc
    have h2 : t.take 2 ≠ ['I', 'D'] := by
      intro hcontra
      rw [show startsDollarID ('$' :: t) = true from by
        simp [startsDollarID, dollarID, List.take_succ_cons, hcontra]] at hst
      exact absurd hst (by simp)
    cases t with
    | nil =>
      rw [expand_id_nil]
      decide
    | cons u r =>
      by_cases hsu : startsDollarID (u :: r) = true
      · rw [expand_id_pos hsu]
        cases idStr with
        | nil => exact absurd rfl hne
        | cons d id2 =>
          have hd : d ≠ 'I' := digit_ne_I (hdig d (by simp))
          simp [startsDollarID, dollarID, List.take_succ_cons, hd]
      · rw [expand_id_neg (Bool.not_eq_true _ ▸ hsu : startsDollarID (u :: r) = false)]
        by_cases hu : u = 'I'
        · subst hu
          have hr : r.head? ≠ some 'D' := by
            intro hdd
            apply h2
            cases r with
            | nil => exact absurd hdd (by simp)
            | cons r0 r2 =>
              rw [List.head?_cons, Option.some_inj] at hdd
              rw [hdd]
              rfl
          have hE := expand_head_ne idStr hdig hne 'D' (by decide) r hr
          cases hEr : expand_id idStr r with
          | nil => decide
          | cons e es =>
            have he : e ≠ 'D' := by
              intro hcontra
              apply hE
              rw [hEr, hcontra]
              rfl
            simp [startsDollarID, dollarID, List.take_succ_cons, he]
        · simp [startsDollarID, dollarID, List.take_succ_cons, hu]
  · exact starts_false_of_ne_dollar hc _

lemma expand_no_id (idStr : List Char)
    (hdig : ∀ c ∈ idStr, isDigitChar c = true) (hne : idStr ≠ []) :
    ∀ v : List Char, hasID (expand_id idStr v) = false := by
  have key : ∀ (n : ℕ) (v : List Char), v.length ≤ n →
      hasID (expand_id idStr v) = false := by
    intro n
    induction n with
    | zero =>
      intro v hv
      rw [List.length_eq_zero.mp (Nat.le_zero.mp hv), expand_id_nil]
      rfl
    | succ n ih =>
      intro v hv
      cases v with
      | nil =>
        rw [expand_id_nil]
        rfl
      | cons c t =>
        by_cases hs : startsDollarID (c :: t) = true
        · rw [expand_id_pos hs, hasID_append_digits hdig]
          apply ih
          simp only [List.drop_succ_cons, List.length_drop, List.length_cons] at hv ⊢
          omega
        · have hs2 : startsDollarID (c :: t) = false := by
            simpa using hs
          rw [expand_id_neg hs2, hasID_cons,
            expand_not_starts idStr hdig hne c t hs2]
          simp only [Bool.false_or]
          apply ih
          simp only [List.length_cons] at hv
          omega
  intro v
  exact key v.length v (le_refl _)

lemma expand_id_of_no_id (idStr : List Char) :
    ∀ v : List Char, hasID v = false → expand_id idStr v = v := by
  intro v
  induction v with
  | nil => intro _; exact expand_id_nil idStr
  | cons c t ih =>
    intro h
    rw [hasID_cons] at h
    rcases Bool.or_eq_false_iff.mp h with ⟨h1, h2⟩
    rw [expand_id_neg h1, ih h2]

lemma expand_id_leftmost (idStr : List Char) :
    ∀ a b : List Char, hasID a = false →
      expand_id idStr (a ++ dollarID ++ b) = a ++ idStr ++ expand_id idStr b := by
  intro a
  induction a with
  | nil =>
    intro b _
    have hs : startsDollarID ('$' :: 'I' :: 'D' :: b) = true := by
      simp [startsDollarID, dollarID, List.take_succ_cons]
    simpa [dollarID] using @expand_id_pos idStr '$' ('I' :: 'D' :: b) hs
  | cons c a2 ih =>
    intro b h
    rw [hasID_cons] at h
    rcases Bool.or_eq_false_iff.mp h with ⟨h1, h2⟩
    have hs : startsDollarID (c :: (a2 ++ dollarID ++ b)) = false := by
      by_cases hc : c = '$'
      · subst hc
        have h3 : a2.take 2 ≠ ['I', 'D'] := by
          intro hcontra
          rw [show startsDollarID ('$' :: a2) = true from by
            simp [startsDollarID, dollarID, List.take_succ_cons, hcontra]] at h1
          exact absurd h1 (by simp)
        simp only [startsDollarID, dollarID, List.append_assoc]
        cases a2 with
        | nil => simp [List.take_succ_cons, dollarID]
        | cons x a3 =>
          cases a3 with
          | nil => simp [List.take_succ_cons, dollarID]
          | cons y a4 =>
            have h4 : ¬(x = 'I' ∧ y = 'D') := by
              intro ⟨hx, hy⟩
              exact h3 (by rw [hx, hy]; rfl)
            simp only [List.cons_append, List.take_succ_cons, decide_eq_false_iff_not]
            intro hcontra
            rw [List.cons_eq_cons, List.cons_eq_cons, List.cons_eq_cons] at hcontra
            exact h4 ⟨hcontra.2.1, hcontra.2.2.1⟩
      · exact starts_false_of_ne_dollar hc _
    calc expand_id idStr ((c :: a2) ++ dollarID ++ b)
        = expand_id idStr (c :: (a2 ++ dollarID ++ b)) := by simp
      _ = c :: expand_id idStr (a2 ++ dollarID ++ b) := expand_id_neg hs
      _ = c :: (a2 ++ idStr ++ expand_id idStr b) := by rw [ih b h2]
      _ = (c :: a2) ++ idStr ++ expand_id idStr b := by simp

/-- C8: when the id string is a nonempty run of decimal digits (the
decimal form of the instance id), the substitution loop replaces every
occurrence of the literal `$ID` — including repeated occurrences — by
the id string: no `$ID` survives in the result, values without `$ID` are
untouched, the leftmost occurrence is spliced and scanning continues in
the remainder, and the resulting value is what gets appended as
`--key=value`. -/
theorem dollar_id_expansion (idStr v : List Char)
    (hdig : ∀ c ∈ idStr, isDigitChar c = true) (hne : idStr ≠ []) :
    hasID (expand_id idStr v) = false
    ∧ (hasID v = false → expand_id idStr v = v)
    ∧ (∀ a b : List Char, hasID a = false → v = a ++ dollarID ++ b →
        expand_id idStr v = a ++ idStr ++ expand_id idStr b)
    ∧ (∀ key : List Char, forwarded_option key v idStr
        = '-' :: '-' :: (key ++ '=' :: expand_id idStr v)) := by
  refine ⟨expand_no_id idStr hdig hne v, expand_id_of_no_id idStr v, ?_, ?_⟩
  · intro a b ha hv
    rw [hv]
    exact expand_id_leftmost idStr a b ha
  · intro key
    rfl

/-- Witness for C8 at the concrete id string "7" and the value
`x$ID-$ID`, whose two occurrences are both replaced. -/
theorem dollar_id_expansion_witness :
    hasID (expand_id ['7'] ("x$ID-$ID".toList)) = false
    ∧ (hasID ("plain".toList) = false →
        expand_id ['7'] ("plain".toList) = "plain".toList) :=
  ⟨(dollar_id_expansion ['7'] ("x$ID-$ID".toList) (by decide) (by decide)).1,
   (dollar_id_expansion ['7'] ("plain".toList) (by decide) (by decide)).2.1⟩

/-! ## C1: the pid tables stay mutual inverses -/

lemma erase_pair_iff {T : Tables}
    (hiff : ∀ p i, T.pid_id p = some i ↔ T.id_pid i = some p)
    {i p : ℕ} (hi : T.id_pid i = some p) :
    ∀ q j, Function.update T.pid_id p none q = some j
      ↔ Function.update T.id_pid i none j = some q := by
  intro q j
  have hpi : T.pid_id p = some i := (hiff p i).mpr hi
  by_cases hq : q = p
  · subst hq
    rw [Function.update_same]
    by_cases hj : j = i
    · subst hj
      rw [Function.update_same]
      simp
    · rw [Function.update_noteq hj]
      constructor
      · intro h
        exact absurd h (by simp)
      · intro h
        have h2 := (hiff q j).mpr h
        rw [hpi] at h2
        exact absurd (Option.some_inj.mp h2).symm hj
  · rw [Function.update_noteq hq]
    by_cases hj : j = i
    · subst hj
      rw [Function.update_same]
      constructor
      · intro h
        have h2 := (hiff q j).mp h
        rw [hi] at h2
        exact absurd (Option.some_inj.mp h2) (fun hpq => hq hpq.symm)
      · intro h
        exact absurd h (by simp)
    · rw [Function.update_noteq hj]
      exact hiff q j

lemma erased_pid_ne {T : Tables}
    (hiff : ∀ p i, T.pid_id p = some i ↔ T.id_pid i = some p)
    {i p q j : ℕ} (hi : T.id_pid i = some p) (hq : q ≠ p)
    (h : T.pid_id q = some j) : j ≠ i := by
  intro hj
  subst hj
  exact hq (Option.some_inj.mp ((hi ▸ (hiff q j).mp h : some p = some q))).symm

lemma step_consistent {T T2 : Tables} (hT : T.Consistent) (hs : Step T T2) :
    T2.Consistent := by
  obtain ⟨hiff, hcmdP, hcmdI⟩ := hT
  cases hs with
  | start_child i p cmd now delay hc hi hp =>
    refine ⟨?_, ?_, ?_⟩ <;> dsimp only
    · intro q j
      by_cases hq : q = p
      · subst hq
        rw [Function.update_same]
        by_cases hj : j = i
        · subst hj
          rw [Function.update_same]
          simp
        · rw [Function.update_noteq hj]
          constructor
          · intro h
            exact absurd (Option.some_inj.mp h).symm hj
          · intro h
            have h2 := (hiff q j).mpr h
            rw [hp] at h2
            exact absurd h2 (by simp)
      · rw [Function.update_noteq hq]
        by_cases hj : j = i
        · subst hj
          rw [Function.update_same]
          constructor
          · intro h
            have h2 := (hiff q j).mp h
            rw [hi] at h2
            exact absurd h2 (by simp)
          · intro h
            exact absurd (Option.some_inj.mp h) (fun hpq => hq hpq.symm)
        · rw [Function.update_noteq hj]
          exact hiff q j
    · intro q j h
      by_cases hj : j = i
      · subst hj
        rw [Function.update_same]
        rfl
      · rw [Function.update_noteq hj]
        by_cases hq : q = p
        · subst hq
          rw [Function.update_same] at h
          exact absurd (Option.some_inj.mp h).symm hj
        · rw [Function.update_noteq hq] at h
          exact hcmdP q j h
    · intro j q h
      by_cases hj : j = i
      · subst hj
        rw [Function.update_same]
        rfl
      · rw [Function.update_noteq hj]
        rw [Function.update_noteq hj] at h
        exact hcmdI j q h
  | start_child_failed =>
    exact ⟨hiff, hcmdP, hcmdI⟩
  | kill_child i p hi =>
    refine ⟨erase_pair_iff hiff hi, ?_, ?_⟩ <;> dsimp only
    · intro q j h
      by_cases hq : q = p
      · subst hq
        rw [Function.update_same] at h
        exact absurd h (by simp)
      · rw [Function.update_noteq hq] at h
        exact hcmdP q j h
    · intro j q h
      by_cases hj : j = i
      · subst hj
        rw [Function.update_same] at h
        exact absurd h (by simp)
      · rw [Function.update_noteq hj] at h
        exact hcmdI j q h
  | erase_instance i p hi =>
    refine ⟨erase_pair_iff hiff hi, ?_, ?_⟩ <;> dsimp only
    · intro q j h
      by_cases hq : q = p
      · subst hq
        rw [Function.update_same] at h
        exact absurd h (by simp)
      · rw [Function.update_noteq hq] at h
        rw [Function.update_noteq (erased_pid_ne hiff hi hq h)]
        exact hcmdP q j h
    · intro j q h
      by_cases hj : j = i
      · subst hj
        rw [Function.update_same] at h
        exact absurd h (by simp)
      · rw [Function.update_noteq hj] at h
        rw [Function.update_noteq hj]
        exact hcmdI j q h
  | set_command i cmd =>
    refine ⟨hiff, ?_, ?_⟩ <;> dsimp only
    · intro q j h
      by_cases hj : j = i
      · subst hj
        rw [Function.update_same]
        rfl
      · rw [Function.update_noteq hj]
        exact hcmdP q j h
    · intro j q h
      by_cases hj : j = i
      · subst hj
        rw [Function.update_same]
        rfl
      · rw [Function.update_noteq hj]
        exact hcmdI j q h
  | reap_deconfigured p i cmd hp hc hd =>
    have hi : T.id_pid i = some p := (hiff p i).mp hp
    refine ⟨erase_pair_iff hiff hi, ?_, ?_⟩ <;> dsimp only
    · intro q j h
      by_cases hq : q = p
      · subst hq
        rw [Function.update_same] at h
        exact absurd h (by simp)
      · rw [Function.update_noteq hq] at h
        rw [Function.update_noteq (erased_pid_ne hiff hi hq h)]
        exact hcmdP q j h
    · intro j q h
      by_cases hj : j = i
      · subst hj
        rw [Function.update_same] at h
        exact absurd h (by simp)
      · rw [Function.update_noteq hj] at h
        rw [Function.update_noteq hj]
        exact hcmdI j q h
  | reap_restartable p i cmd now jitter hp hc hd =>
    have hi : T.id_pid i = some p := (hiff p i).mp hp
    refine ⟨erase_pair_iff hiff hi, ?_, ?_⟩ <;> dsimp only
    · intro q j h
      by_cases hj : j = i
      · subst hj
        rw [Function.update_same]
        rfl
      · rw [Function.update_noteq hj]
        by_cases hq : q = p
        · subst hq
          rw [Function.update_same] at h
          exact absurd h (by simp)
        · rw [Function.update_noteq hq] at h
          exact hcmdP q j h
    · intro j q h
      by_cases hj : j = i
      · subst hj
        rw [Function.update_same]
        rfl
      · rw [Function.update_noteq hj]
        rw [Function.update_noteq hj] at h
        exact hcmdI j q h

/-- C1: at every quiescent table state the supervisor can reach —
starting empty and composing the net table effects of `start_process`,
`kill_process`, the reconciler's erasures and Command writes, and the
reaping pass — `pid_id` and `id_pid` are mutual inverses
(`pid_id[p] = i` iff `id_pid[i] = p`) and every id mentioned in either
mapping has an entry in `id_command`. -/
theorem quiescent_tables_bijection (T : Tables) (h : TablesReachable T) :
    (∀ p i, T.pid_id p = some i ↔ T.id_pid i = some p)
    ∧ (∀ p i, T.pid_id p = some i → (T.id_command i).isSome = true)
    ∧ (∀ i p, T.id_pid i = some p → (T.id_command i).isSome = true) := by
  unfold TablesReachable at h
  induction h with
  | refl =>
    refine ⟨?_, ?_, ?_⟩
    · intro p i
      simp [Tables.empty]
    · intro p i hcontra
      exact absurd hcontra (by simp [Tables.empty])
    · intro i p hcontra
      exact absurd hcontra (by simp [Tables.empty])
  | tail hsteps hlast ih =>
    exact step_consistent ih hlast

/-- Witness for C1 at the initial (empty, trivially quiescent) tables. -/
theorem quiescent_tables_bijection_witness :
    (Tables.empty.pid_id 5 = some 3 ↔ Tables.empty.id_pid 3 = some 5)
    ∧ (Tables.empty.pid_id 5 = some 3
        → (Tables.empty.id_command 3).isSome = true) :=
  ⟨(quiescent_tables_bijection Tables.empty Relation.ReflTransGen.refl).1 5 3,
   (quiescent_tables_bijection Tables.empty Relation.ReflTransGen.refl).2.1 5 3⟩

end Fdbmonitor
